import Mathlib

/-!
Verification of the EastSideCoin encryption envelope (`app/encryption_utils.py`).

Shallow embedding of the hybrid-encryption core: Python `bytes` values are
modelled as `List Nat` with every element `< 256`, Python `str` values as
`List Nat` of Unicode code points.  Pure helper functions (`_b64_fix`, `b64e`,
`b64d`, `pkcs7_pad`, `pkcs7_unpad`) are translated directly from the source.
`base64.b64decode` is modelled after CPython's non-strict `binascii.a2b_base64`
(invalid characters are discarded; `=` counts toward padding only once two data
characters of the current quantum have been seen; a completed padding quantum
ends processing).  Bit operations `x << k ||| y` from the C decoder are written
as `x * 2^k + y`, which is equal because `y < 2^k` at every use site.

The external library primitives (AES block function from `cryptography`,
HMAC-SHA256 from `hmac`, RSA-OAEP from `cryptography`) are parameters of the
embedding: theorems assume only their documented properties (a block cipher is
a length-preserving bijection on 16-byte blocks; the RSA private key inverts
the public key).  Python exceptions are modelled with `Option`/`Except`.
-/

/-- Model of a Python `bytes` well-formedness condition: every element is a
byte value. -/
def ByteOk (bs : List Nat) : Prop := ∀ b ∈ bs, b < 256

instance byteOkDecidable (bs : List Nat) : Decidable (ByteOk bs) :=
  List.decidableBAll _ bs

/-- Model of a Python `str` well-formedness condition: every element is a
Unicode scalar value (code point that `str.encode("utf-8")` accepts: below
0x110000 and not a surrogate). -/
def StrOk (s : List Nat) : Prop :=
  ∀ c ∈ s, c < 1114112 ∧ ¬(55296 ≤ c ∧ c < 57344)

instance strOkDecidable (s : List Nat) : Decidable (StrOk s) :=
  List.decidableBAll _ s

/-! Section: PKCS#7 padding (`pkcs7_pad`, `pkcs7_unpad`) -/

/-- Source `pkcs7_pad(data, block_size)`: appends `pad_len` bytes of value `pad_len`
where `pad_len = block_size - (len(data) % block_size)`. -/
def pkcs7_pad (data : List Nat) (block_size : Nat) : List Nat :=
  let pad_len := block_size - data.length % block_size
  data ++ List.replicate pad_len pad_len

/-- Source `pkcs7_unpad(padded, block_size)`: raises `ValueError` (modelled `none`) on
empty input, on `pad_len < 1`, `pad_len > block_size`, `len(padded) < pad_len`,
or when the last `pad_len` bytes are not all `pad_len`; otherwise drops the
last `pad_len` bytes.  `padded[-1]` is the last element, `padded[-n:]` is
`drop (length - n)`, `padded[:-n]` is `take (length - n)`. -/
def pkcs7_unpad (padded : List Nat) (block_size : Nat) : Option (List Nat) :=
  match padded.getLast? with
  | none => none
  | some pad_len =>
    if pad_len < 1 ∨ pad_len > block_size ∨ padded.length < pad_len then none
    else if padded.drop (padded.length - pad_len) ≠ List.replicate pad_len pad_len then none
    else some (padded.take (padded.length - pad_len))

/-- Restatement of `pkcs7_unpad` in the words of the specification (fails
exactly when the last byte `n` is 0, greater than the block size, greater than
the buffer length — including the empty buffer — or the last `n` bytes are not
all `n`; otherwise removes the last `n` bytes), used to compare the source
against the spec sentence. -/
def pkcs7_unpad_claimed (padded : List Nat) (block_size : Nat) : Option (List Nat) :=
  match padded.getLast? with
  | none => none
  | some n =>
    if n = 0 ∨ n > block_size ∨ n > padded.length ∨
        padded.drop (padded.length - n) ≠ List.replicate n n then none
    else some (padded.take (padded.length - n))

/-! Section: Base64 codec (`_b64_fix`, `b64e`, `b64d`) -/

/-- Character class of Python's `re` pattern `\s` on `str` (the whitespace the
regex `_B64_WS` strips). -/
def isPyWs (c : Nat) : Bool :=
  [9, 10, 11, 12, 13, 28, 29, 30, 31, 32, 133, 160, 5760,
   8232, 8233, 8239, 8287, 12288].contains c || (8192 ≤ c && c ≤ 8202)

/-- The two `str.replace` calls of `_b64_fix`: URL-safe alphabet characters
`-` (45) and `_` (95) become `+` (43) and `/` (47). -/
def urlMap (c : Nat) : Nat :=
  if c = 45 then 43 else if c = 95 then 47 else c

/-- Source `_b64_fix(s)`: strip whitespace, map the URL-safe alphabet to the standard
one, and pad with `=` (61) to a multiple of 4. -/
def b64_fix (s : List Nat) : List Nat :=
  let t := (s.filter (fun c => !(isPyWs c))).map urlMap
  if t.length % 4 = 0 then t else t ++ List.replicate (4 - t.length % 4) 61

/-- The standard base64 alphabet, index (0–63) to character code. -/
def b64EncTable (i : Nat) : Nat :=
  if i < 26 then 65 + i
  else if i < 52 then 71 + i
  else if i < 62 then i - 4
  else if i = 62 then 43
  else 47

/-- The standard base64 alphabet, character code to index; `none` for
characters outside the alphabet (CPython's `table_a2b_base64` entry `-1`). -/
def b64DecTable (c : Nat) : Option Nat :=
  if 65 ≤ c ∧ c ≤ 90 then some (c - 65)
  else if 97 ≤ c ∧ c ≤ 122 then some (c - 71)
  else if 48 ≤ c ∧ c ≤ 57 then some (c + 4)
  else if c = 43 then some 62
  else if c = 47 then some 63
  else none

/-- Source `b64e(b) = base64.b64encode(b)`: standard base64, three input bytes per
four output characters, `=`-padded. -/
def b64e : List Nat → List Nat
  | [] => []
  | [b0] => [b64EncTable (b0 / 4), b64EncTable (b0 % 4 * 16), 61, 61]
  | [b0, b1] =>
      [b64EncTable (b0 / 4), b64EncTable (b0 % 4 * 16 + b1 / 16),
       b64EncTable (b1 % 16 * 4), 61]
  | b0 :: b1 :: b2 :: rest =>
      b64EncTable (b0 / 4) :: b64EncTable (b0 % 4 * 16 + b1 / 16) ::
      b64EncTable (b1 % 16 * 4 + b2 / 64) :: b64EncTable (b2 % 64) ::
      b64e rest

/-- CPython `binascii.a2b_base64` in non-strict mode (the `base64.b64decode`
default): state is the position in the current quantum (`quadPos`), the
pending bits (`leftchar`), and the running pad count (`pads`).  Characters
outside the alphabet are skipped; `=` is counted only when `quadPos ≥ 2`, and
a quantum completed by padding ends processing; a final incomplete quantum is
an error (`binascii.Error`, modelled `none`). -/
def a2b : List Nat → Nat → Nat → Nat → List Nat → Option (List Nat)
  | [], quadPos, _, _, acc => if quadPos = 0 then some acc else none
  | c :: rest, quadPos, leftchar, pads, acc =>
    if c = 61 then
      if 2 ≤ quadPos then
        if 4 ≤ quadPos + pads + 1 then some acc
        else a2b rest quadPos leftchar (pads + 1) acc
      else a2b rest quadPos leftchar pads acc
    else
      match b64DecTable c with
      | none => a2b rest quadPos leftchar pads acc
      | some v =>
        match quadPos with
        | 0 => a2b rest 1 v 0 acc
        | 1 => a2b rest 2 (v % 16) 0 (acc ++ [leftchar * 4 + v / 16])
        | 2 => a2b rest 3 (v % 4) 0 (acc ++ [leftchar * 16 + v / 4])
        | _ => a2b rest 0 0 0 (acc ++ [leftchar * 64 + v])

/-- Source `b64d(s) = base64.b64decode(_b64_fix(s))`: `b64decode` first ASCII-encodes
its `str` argument (`ValueError` on a code point ≥ 128, modelled `none`), then
runs the non-strict decoder. -/
def b64d (s : List Nat) : Option (List Nat) :=
  let t := b64_fix s
  if t.all (fun c => c < 128) then a2b t 0 0 0 [] else none

/-- Strict base64 well-formedness in the sense of the specification's
"valid base64": whole quanta of alphabet characters, the last quantum
optionally closed by `=` or `==` padding. -/
def validB64 : List Nat → Bool
  | [] => true
  | c0 :: c1 :: c2 :: c3 :: rest =>
      (b64DecTable c0).isSome && (b64DecTable c1).isSome &&
      (((b64DecTable c2).isSome && (b64DecTable c3).isSome && validB64 rest) ||
       (rest.isEmpty &&
        ((c2 = 61 && c3 = 61) || ((b64DecTable c2).isSome && c3 = 61))))
  | _ => false

/-- Control-flow projection of `a2b`: tracks only whether the decoder ends in
the middle of a quantum (the one failure condition of the non-strict decoder).
Used to state exactly when `b64d` raises. -/
def a2bOk : List Nat → Nat → Nat → Bool
  | [], quadPos, _ => quadPos = 0
  | c :: rest, quadPos, pads =>
    if c = 61 then
      if 2 ≤ quadPos then
        if 4 ≤ quadPos + pads + 1 then true
        else a2bOk rest quadPos (pads + 1)
      else a2bOk rest quadPos pads
    else
      match b64DecTable c with
      | none => a2bOk rest quadPos pads
      | some _ =>
        match quadPos with
        | 0 => a2bOk rest 1 0
        | 1 => a2bOk rest 2 0
        | 2 => a2bOk rest 3 0
        | _ => a2bOk rest 0 0

/-! Section: PKCS#7 lemmas -/

theorem getLast?_replicate_of_pos {n x : Nat} (h : 1 ≤ n) :
    (List.replicate n x).getLast? = some x := by
  rw [List.getLast?_eq_getElem?]
  simp only [List.length_replicate]
  rw [List.getElem?_replicate]
  simp only [if_pos (by omega : n - 1 < n)]

theorem pkcs7_unpad_eq_of_getLast (padded : List Nat) (bs n : Nat)
    (h : padded.getLast? = some n) :
    pkcs7_unpad padded bs =
      if n < 1 ∨ n > bs ∨ padded.length < n then none
      else if padded.drop (padded.length - n) ≠ List.replicate n n then none
      else some (padded.take (padded.length - n)) := by
  unfold pkcs7_unpad
  rw [h]

theorem pkcs7_unpad_pkcs7_pad (data : List Nat) :
    pkcs7_unpad (pkcs7_pad data 16) 16 = some data := by
  have hmod : data.length % 16 < 16 := Nat.mod_lt _ (by omega)
  simp only [pkcs7_pad]
  obtain ⟨n, hn⟩ : ∃ n, 16 - data.length % 16 = n := ⟨_, rfl⟩
  rw [hn]
  have hn1 : 1 ≤ n := by omega
  have hn16 : n ≤ 16 := by omega
  have hrep : (List.replicate n n : List Nat) ≠ [] := by
    simp only [ne_eq, List.replicate_eq_nil_iff]
    omega
  rw [pkcs7_unpad_eq_of_getLast _ _ n
    (by rw [List.getLast?_append_of_ne_nil _ hrep, getLast?_replicate_of_pos hn1])]
  have hlen : (data ++ List.replicate n n).length = data.length + n := by simp
  rw [if_neg (by omega)]
  have hsub : (data ++ List.replicate n n).length - n = data.length := by omega
  rw [hsub]
  have hdrop : (data ++ List.replicate n n).drop data.length = List.replicate n n :=
    List.drop_left data _
  rw [if_neg (by simp [hdrop])]
  rw [List.take_left]

theorem pkcs7_unpad_claimed_eq_of_getLast (padded : List Nat) (bs n : Nat)
    (h : padded.getLast? = some n) :
    pkcs7_unpad_claimed padded bs =
      if n = 0 ∨ n > bs ∨ n > padded.length ∨
          padded.drop (padded.length - n) ≠ List.replicate n n then none
      else some (padded.take (padded.length - n)) := by
  unfold pkcs7_unpad_claimed
  rw [h]

/-- C6: `pkcs7_pad` at block size 16 appends exactly `n` bytes of value `n`
where `n = 16 - (len(data) mod 16)`, and `n` is always between 1 and 16, so a
16-aligned input receives a full 16-byte padding block and no input receives
zero padding bytes. -/
theorem pkcs7_pad_full_block (data : List Nat) :
    pkcs7_pad data 16 =
      data ++ List.replicate (16 - data.length % 16) (16 - data.length % 16) ∧
    1 ≤ 16 - data.length % 16 ∧ 16 - data.length % 16 ≤ 16 := by
  refine ⟨rfl, ?_, ?_⟩ <;> omega

/-- C5: `pkcs7_unpad` at block size 16 fails exactly when the last byte `n` is
0, greater than the block size, greater than the buffer length (the empty
buffer included), or the last `n` bytes are not all `n`, and otherwise returns
the input without its last `n` bytes — stated as pointwise equality with the
specification's description `pkcs7_unpad_claimed`; in particular a buffer of
16 zero padding bytes is rejected. -/
theorem pkcs7_unpad_rejects_exactly_claimed :
    (∀ padded : List Nat, pkcs7_unpad padded 16 = pkcs7_unpad_claimed padded 16) ∧
    pkcs7_unpad (List.replicate 16 0) 16 = none := by
  constructor
  · intro padded
    cases hl : padded.getLast? with
    | none =>
      unfold pkcs7_unpad pkcs7_unpad_claimed
      rw [hl]
    | some n =>
      rw [pkcs7_unpad_eq_of_getLast _ _ n hl, pkcs7_unpad_claimed_eq_of_getLast _ _ n hl]
      by_cases h1 : n < 1 ∨ n > 16 ∨ padded.length < n
      · rw [if_pos h1, if_pos ?_]
        rcases h1 with h | h | h
        · exact Or.inl (by omega)
        · exact Or.inr (Or.inl h)
        · exact Or.inr (Or.inr (Or.inl (by omega)))
      · rw [if_neg h1]
        by_cases h2 : padded.drop (padded.length - n) ≠ List.replicate n n
        · rw [if_pos h2, if_pos (Or.inr (Or.inr (Or.inr h2)))]
        · rw [if_neg h2, if_neg ?_]
          intro contra
          rcases contra with h | h | h | h
          · exact h1 (Or.inl (by omega))
          · exact h1 (Or.inr (Or.inl h))
          · exact h1 (Or.inr (Or.inr (by omega)))
          · exact h2 h
  · decide

/-! Section: Base64 lemmas -/

theorem b64DecTable_b64EncTable : ∀ v, v < 64 → b64DecTable (b64EncTable v) = some v := by
  decide

theorem b64EncTable_ne_61 : ∀ v, v < 64 → b64EncTable v ≠ 61 := by decide

theorem b64EncTable_plain : ∀ v, v < 64 →
    isPyWs (b64EncTable v) = false ∧ urlMap (b64EncTable v) = b64EncTable v ∧
    b64EncTable v < 128 := by decide

theorem a2b_step0 {c v : Nat} (hc : c ≠ 61) (hv : b64DecTable c = some v)
    (rest : List Nat) (lc pads : Nat) (acc : List Nat) :
    a2b (c :: rest) 0 lc pads acc = a2b rest 1 v 0 acc := by
  simp [a2b, hc, hv]

theorem a2b_step1 {c v : Nat} (hc : c ≠ 61) (hv : b64DecTable c = some v)
    (rest : List Nat) (lc pads : Nat) (acc : List Nat) :
    a2b (c :: rest) 1 lc pads acc = a2b rest 2 (v % 16) 0 (acc ++ [lc * 4 + v / 16]) := by
  simp [a2b, hc, hv]

theorem a2b_step2 {c v : Nat} (hc : c ≠ 61) (hv : b64DecTable c = some v)
    (rest : List Nat) (lc pads : Nat) (acc : List Nat) :
    a2b (c :: rest) 2 lc pads acc = a2b rest 3 (v % 4) 0 (acc ++ [lc * 16 + v / 4]) := by
  simp [a2b, hc, hv]

theorem a2b_step3 {c v : Nat} (hc : c ≠ 61) (hv : b64DecTable c = some v)
    (rest : List Nat) (lc pads : Nat) (acc : List Nat) :
    a2b (c :: rest) 3 lc pads acc = a2b rest 0 0 0 (acc ++ [lc * 64 + v]) := by
  simp [a2b, hc, hv]

theorem a2b_pad_at2 (rest : List Nat) (lc : Nat) (acc : List Nat) :
    a2b (61 :: rest) 2 lc 0 acc = a2b rest 2 lc 1 acc := by
  simp [a2b]

theorem a2b_pad_at2_done (rest : List Nat) (lc : Nat) (acc : List Nat) :
    a2b (61 :: rest) 2 lc 1 acc = some acc := by
  simp [a2b]

theorem a2b_pad_at3_done (rest : List Nat) (lc pads : Nat) (acc : List Nat) :
    a2b (61 :: rest) 3 lc pads acc = some acc := by
  simp [a2b]

theorem a2b_quad {b0 b1 b2 : Nat} (h0 : b0 < 256) (h1 : b1 < 256) (h2 : b2 < 256)
    (rest : List Nat) (lc pads : Nat) (acc : List Nat) :
    a2b (b64EncTable (b0 / 4) :: b64EncTable (b0 % 4 * 16 + b1 / 16) ::
         b64EncTable (b1 % 16 * 4 + b2 / 64) :: b64EncTable (b2 % 64) :: rest)
        0 lc pads acc
      = a2b rest 0 0 0 (acc ++ [b0, b1, b2]) := by
  have hv0 : b0 / 4 < 64 := by omega
  have hv1 : b0 % 4 * 16 + b1 / 16 < 64 := by omega
  have hv2 : b1 % 16 * 4 + b2 / 64 < 64 := by omega
  have hv3 : b2 % 64 < 64 := by omega
  rw [a2b_step0 (b64EncTable_ne_61 _ hv0) (b64DecTable_b64EncTable _ hv0)]
  rw [a2b_step1 (b64EncTable_ne_61 _ hv1) (b64DecTable_b64EncTable _ hv1)]
  rw [a2b_step2 (b64EncTable_ne_61 _ hv2) (b64DecTable_b64EncTable _ hv2)]
  rw [a2b_step3 (b64EncTable_ne_61 _ hv3) (b64DecTable_b64EncTable _ hv3)]
  have e1 : b0 / 4 * 4 + (b0 % 4 * 16 + b1 / 16) / 16 = b0 := by omega
  have e2 : (b0 % 4 * 16 + b1 / 16) % 16 * 16 + (b1 % 16 * 4 + b2 / 64) / 4 = b1 := by omega
  have e3 : (b1 % 16 * 4 + b2 / 64) % 4 * 64 + b2 % 64 = b2 := by omega
  rw [e1, e2, e3]
  simp

theorem a2b_tail1 {b0 : Nat} (h0 : b0 < 256) (lc pads : Nat) (acc : List Nat) :
    a2b [b64EncTable (b0 / 4), b64EncTable (b0 % 4 * 16), 61, 61] 0 lc pads acc
      = some (acc ++ [b0]) := by
  have hv0 : b0 / 4 < 64 := by omega
  have hv1 : b0 % 4 * 16 < 64 := by omega
  rw [a2b_step0 (b64EncTable_ne_61 _ hv0) (b64DecTable_b64EncTable _ hv0)]
  rw [a2b_step1 (b64EncTable_ne_61 _ hv1) (b64DecTable_b64EncTable _ hv1)]
  rw [a2b_pad_at2, a2b_pad_at2_done]
  have e1 : b0 / 4 * 4 + b0 % 4 * 16 / 16 = b0 := by omega
  rw [e1]

theorem a2b_tail2 {b0 b1 : Nat} (h0 : b0 < 256) (h1 : b1 < 256)
    (lc pads : Nat) (acc : List Nat) :
    a2b [b64EncTable (b0 / 4), b64EncTable (b0 % 4 * 16 + b1 / 16),
         b64EncTable (b1 % 16 * 4), 61] 0 lc pads acc
      = some (acc ++ [b0, b1]) := by
  have hv0 : b0 / 4 < 64 := by omega
  have hv1 : b0 % 4 * 16 + b1 / 16 < 64 := by omega
  have hv2 : b1 % 16 * 4 < 64 := by omega
  rw [a2b_step0 (b64EncTable_ne_61 _ hv0) (b64DecTable_b64EncTable _ hv0)]
  rw [a2b_step1 (b64EncTable_ne_61 _ hv1) (b64DecTable_b64EncTable _ hv1)]
  rw [a2b_step2 (b64EncTable_ne_61 _ hv2) (b64DecTable_b64EncTable _ hv2)]
  rw [a2b_pad_at3_done]
  have e1 : b0 / 4 * 4 + (b0 % 4 * 16 + b1 / 16) / 16 = b0 := by omega
  have e2 : (b0 % 4 * 16 + b1 / 16) % 16 * 16 + b1 % 16 * 4 / 4 = b1 := by omega
  rw [e1, e2]
  simp

theorem a2b_b64e : ∀ bs : List Nat, ByteOk bs →
    ∀ lc pads acc, a2b (b64e bs) 0 lc pads acc = some (acc ++ bs) := by
  intro bs
  induction bs using b64e.induct with
  | case1 =>
    intro _ lc pads acc
    simp [b64e, a2b]
  | case2 b0 =>
    intro h lc pads acc
    have h0 : b0 < 256 := h b0 (by simp)
    rw [b64e]
    exact a2b_tail1 h0 lc pads acc
  | case3 b0 b1 =>
    intro h lc pads acc
    have h0 : b0 < 256 := h b0 (by simp)
    have h1 : b1 < 256 := h b1 (by simp)
    rw [b64e]
    exact a2b_tail2 h0 h1 lc pads acc
  | case4 b0 b1 b2 rest ih =>
    intro h lc pads acc
    have h0 : b0 < 256 := h b0 (by simp)
    have h1 : b1 < 256 := h b1 (by simp)
    have h2 : b2 < 256 := h b2 (by simp)
    rw [b64e, a2b_quad h0 h1 h2]
    rw [ih (fun b hb => h b (by simp [hb])) 0 0 (acc ++ [b0, b1, b2])]
    simp

theorem b64e_chars : ∀ bs : List Nat, ByteOk bs → ∀ c ∈ b64e bs,
    isPyWs c = false ∧ urlMap c = c ∧ c < 128 := by
  intro bs
  induction bs using b64e.induct with
  | case1 =>
    intro _ c hc
    simp [b64e] at hc
  | case2 b0 =>
    intro h c hc
    have h0 : b0 < 256 := h b0 (by simp)
    rw [b64e] at hc
    simp only [List.mem_cons, List.not_mem_nil, or_false] at hc
    rcases hc with hc | hc | hc | hc <;> subst hc
    · exact b64EncTable_plain _ (by omega)
    · exact b64EncTable_plain _ (by omega)
    · decide
    · decide
  | case3 b0 b1 =>
    intro h c hc
    have h0 : b0 < 256 := h b0 (by simp)
    have h1 : b1 < 256 := h b1 (by simp)
    rw [b64e] at hc
    simp only [List.mem_cons, List.not_mem_nil, or_false] at hc
    rcases hc with hc | hc | hc | hc <;> subst hc
    · exact b64EncTable_plain _ (by omega)
    · exact b64EncTable_plain _ (by omega)
    · exact b64EncTable_plain _ (by omega)
    · decide
  | case4 b0 b1 b2 rest ih =>
    intro h c hc
    have h0 : b0 < 256 := h b0 (by simp)
    have h1 : b1 < 256 := h b1 (by simp)
    have h2 : b2 < 256 := h b2 (by simp)
    rw [b64e] at hc
    simp only [List.mem_cons] at hc
    rcases hc with hc | hc | hc | hc | hc
    · subst hc; exact b64EncTable_plain _ (by omega)
    · subst hc; exact b64EncTable_plain _ (by omega)
    · subst hc; exact b64EncTable_plain _ (by omega)
    · subst hc; exact b64EncTable_plain _ (by omega)
    · exact ih (fun b hb => h b (by simp [hb])) c hc

theorem b64e_length_mod (bs : List Nat) : (b64e bs).length % 4 = 0 := by
  induction bs using b64e.induct with
  | case1 => rfl
  | case2 b0 => rw [b64e]; simp
  | case3 b0 b1 => rw [b64e]; simp
  | case4 b0 b1 b2 rest ih =>
    rw [b64e]
    simp only [List.length_cons]
    omega

theorem b64_fix_b64e (bs : List Nat) (h : ByteOk bs) : b64_fix (b64e bs) = b64e bs := by
  unfold b64_fix
  have hfilter : (b64e bs).filter (fun c => !(isPyWs c)) = b64e bs := by
    rw [List.filter_eq_self]
    intro c hc
    simp [(b64e_chars bs h c hc).1]
  have hmap : (b64e bs).map urlMap = b64e bs := by
    conv_rhs => rw [← List.map_id (b64e bs)]
    exact List.map_congr_left (fun c hc => (b64e_chars bs h c hc).2.1)
  rw [hfilter, hmap, if_pos (b64e_length_mod bs)]

theorem b64d_b64e (bs : List Nat) (h : ByteOk bs) : b64d (b64e bs) = some bs := by
  unfold b64d
  rw [b64_fix_b64e bs h]
  have hall : (b64e bs).all (fun c => c < 128) = true := by
    rw [List.all_eq_true]
    intro c hc
    simpa using (b64e_chars bs h c hc).2.2
  rw [if_pos hall]
  simpa using a2b_b64e bs h 0 0 []

/-- C7: decoding any representation of a byte string `B` that normalizes to
the canonical standard-alphabet padded encoding of `B` — in particular the
canonical form itself, and forms with interior whitespace or newlines
(stripped by `_b64_fix`), with the URL-safe alphabet (`-`/`_` mapped to
`+`/`/`), or with trailing `=` padding omitted (re-added by `_b64_fix`) —
succeeds via `b64d` and yields exactly `B`. -/
theorem b64d_tolerant_variants (B : List Nat) (hB : ByteOk B) :
    b64d (b64e B) = some B ∧
    ∀ s : List Nat, b64_fix s = b64e B → b64d s = some B := by
  refine ⟨b64d_b64e B hB, ?_⟩
  intro s hfix
  unfold b64d
  rw [hfix]
  have hall : (b64e B).all (fun c => c < 128) = true := by
    rw [List.all_eq_true]
    intro c hc
    simpa using (b64e_chars B hB c hc).2.2
  rw [if_pos hall]
  simpa using a2b_b64e B hB 0 0 []

/-- Witness for C7: the string `"- w\n"` (URL-safe character, interior
whitespace, missing padding) decodes to the byte `0xFB`, whose canonical
encoding is `"+w=="`. -/
theorem b64d_tolerant_variants_witness :
    ByteOk [251] ∧ b64d [45, 32, 119, 10] = some [251] :=
  ⟨by decide, (b64d_tolerant_variants [251] (by decide)).2 [45, 32, 119, 10] (by decide)⟩

theorem a2b_eq_none_iff_a2bOk :
    ∀ (t : List Nat) (qp lc pads : Nat) (acc : List Nat),
      (a2b t qp lc pads acc = none ↔ a2bOk t qp pads = false) := by
  intro t
  induction t with
  | nil =>
    intro qp lc pads acc
    by_cases h : qp = 0 <;> simp [a2b, a2bOk, h]
  | cons c rest ih =>
    intro qp lc pads acc
    by_cases hc : c = 61
    · subst hc
      by_cases h2 : 2 ≤ qp
      · by_cases h4 : 4 ≤ qp + pads + 1
        · simp [a2b, a2bOk, h2, h4]
        · simp [a2b, a2bOk, h2, h4, ih]
      · simp [a2b, a2bOk, h2, ih]
    · cases hdt : b64DecTable c with
      | none => simp [a2b, a2bOk, hc, hdt, ih]
      | some v =>
        match qp with
        | 0 => simp [a2b, a2bOk, hc, hdt, ih]
        | 1 => simp [a2b, a2bOk, hc, hdt, ih]
        | 2 => simp [a2b, a2bOk, hc, hdt, ih]
        | _ + 3 => simp [a2b, a2bOk, hc, hdt, ih]

/-- Counterexample to C8: the input `"????"` is not valid base64 even after
normalization (`_b64_fix` leaves it unchanged), yet `b64d` returns the empty
byte string instead of failing, because the non-strict CPython decoder
discards the characters outside the alphabet. -/
theorem b64d_malformed_counterexample :
    validB64 (b64_fix [63, 63, 63, 63]) = false ∧
    b64d [63, 63, 63, 63] = some [] := by
  decide

/-- C8 (amended): after normalization, `b64d` fails exactly when the string
contains a non-ASCII code point or when — with the characters outside the
base64 alphabet discarded, as the non-strict decoder does — the data
characters end in an incomplete quantum not closed by `=` padding (the
condition `a2bOk`); other malformed inputs have their invalid characters
discarded and return bytes. -/
theorem b64d_eq_none_characterization (s : List Nat) :
    b64d s = none ↔
      ((b64_fix s).all (fun c => c < 128) = false ∨ a2bOk (b64_fix s) 0 0 = false) := by
  unfold b64d
  by_cases hall : (b64_fix s).all (fun c => c < 128) = true
  · rw [if_pos hall, hall]
    simp only [Bool.true_eq_false, false_or]
    exact a2b_eq_none_iff_a2bOk (b64_fix s) 0 0 0 []
  · rw [if_neg hall]
    simp only [Bool.not_eq_true] at hall
    simp [hall]

/-- Witness for C8 (amended): the single character `"a"` pads to `"a==="`,
whose lone data character is an incomplete quantum, so `b64d` fails. -/
theorem b64d_eq_none_characterization_witness : b64d [97] = none :=
  (b64d_eq_none_characterization [97]).mpr (by decide)

/-! Section: UTF-8 codec (`str.encode("utf-8")` / `bytes.decode("utf-8")`)

CPython's strict UTF-8 codec: `encode` maps each Unicode scalar value to 1–4
bytes (surrogates raise, which is why theorems about `encrypt`/`decrypt`
carry the `StrOk` hypothesis); `decode` rejects overlong forms, surrogates,
code points above 0x10FFFF, truncated sequences, and stray continuation
bytes.  Shifts and masks are written with `/`, `%`, `*`, `+` on `Nat`. -/

/-- One code point to its UTF-8 bytes. -/
def utf8EncodeChar (n : Nat) : List Nat :=
  if n < 128 then [n]
  else if n < 2048 then [192 + n / 64, 128 + n % 64]
  else if n < 65536 then [224 + n / 4096, 128 + n / 64 % 64, 128 + n % 64]
  else [240 + n / 262144, 128 + n / 4096 % 64, 128 + n / 64 % 64, 128 + n % 64]

/-- Model of `str.encode("utf-8")`. -/
def utf8Encode (s : List Nat) : List Nat := s.flatMap utf8EncodeChar

/-- Model of `bytes.decode("utf-8")` in strict mode; `none` models `UnicodeDecodeError`.
Continuation bytes are read with `getD` (default 0, which is outside every
continuation range, so a truncated sequence fails exactly as in CPython). -/
def utf8Decode (bs : List Nat) : Option (List Nat) :=
  match bs with
  | [] => some []
  | b0 :: rest =>
    if b0 < 128 then (utf8Decode rest).map (fun t => b0 :: t)
    else if b0 < 194 then none
    else if b0 < 224 then
      if 128 ≤ rest.getD 0 0 ∧ rest.getD 0 0 < 192 then
        (utf8Decode (rest.drop 1)).map
          (fun t => ((b0 - 192) * 64 + (rest.getD 0 0 - 128)) :: t)
      else none
    else if b0 < 240 then
      if ((if b0 = 224 then 160 else 128) ≤ rest.getD 0 0 ∧
            rest.getD 0 0 < (if b0 = 237 then 160 else 192)) ∧
          (128 ≤ rest.getD 1 0 ∧ rest.getD 1 0 < 192) then
        (utf8Decode (rest.drop 2)).map
          (fun t => ((b0 - 224) * 4096 + (rest.getD 0 0 - 128) * 64 + (rest.getD 1 0 - 128)) :: t)
      else none
    else if b0 < 245 then
      if ((if b0 = 240 then 144 else 128) ≤ rest.getD 0 0 ∧
            rest.getD 0 0 < (if b0 = 244 then 144 else 192)) ∧
          (128 ≤ rest.getD 1 0 ∧ rest.getD 1 0 < 192) ∧
          (128 ≤ rest.getD 2 0 ∧ rest.getD 2 0 < 192) then
        (utf8Decode (rest.drop 3)).map
          (fun t => ((b0 - 240) * 262144 + (rest.getD 0 0 - 128) * 4096 +
                     (rest.getD 1 0 - 128) * 64 + (rest.getD 2 0 - 128)) :: t)
      else none
    else none
termination_by bs.length
decreasing_by
  all_goals simp
  all_goals omega

set_option maxRecDepth 8000

set_option maxHeartbeats 1000000

theorem utf8Decode_encodeChar_append (n : Nat) (h1 : n < 1114112)
    (h2 : ¬(55296 ≤ n ∧ n < 57344)) (rest : List Nat) :
    utf8Decode (utf8EncodeChar n ++ rest) = (utf8Decode rest).map (fun t => n :: t) := by
  by_cases hA : n < 128
  · have he : utf8EncodeChar n = [n] := by rw [utf8EncodeChar, if_pos hA]
    rw [he, List.singleton_append, utf8Decode, if_pos hA]
  · by_cases hB : n < 2048
    · have he : utf8EncodeChar n = [192 + n / 64, 128 + n % 64] := by
        rw [utf8EncodeChar, if_neg hA, if_pos hB]
      rw [he]
      simp only [List.cons_append, List.nil_append]
      rw [utf8Decode]
      simp only [List.getD_cons_zero, List.getD_cons_succ, List.drop_succ_cons,
        List.drop_zero]
      split_ifs <;>
        first
          | omega
          | (congr 1; funext t; simp only [List.cons.injEq, and_true]; omega)
    · by_cases hC : n < 65536
      · have he : utf8EncodeChar n = [224 + n / 4096, 128 + n / 64 % 64, 128 + n % 64] := by
          rw [utf8EncodeChar, if_neg hA, if_neg hB, if_pos hC]
        rw [he]
        simp only [List.cons_append, List.nil_append]
        rw [utf8Decode]
        simp only [List.getD_cons_zero, List.getD_cons_succ, List.drop_succ_cons,
          List.drop_zero]
        split_ifs <;>
          first
            | omega
            | (congr 1; funext t; simp only [List.cons.injEq, and_true]; omega)
      · have he : utf8EncodeChar n =
            [240 + n / 262144, 128 + n / 4096 % 64, 128 + n / 64 % 64, 128 + n % 64] := by
          rw [utf8EncodeChar, if_neg hA, if_neg hB, if_neg hC]
        rw [he]
        simp only [List.cons_append, List.nil_append]
        rw [utf8Decode]
        simp only [List.getD_cons_zero, List.getD_cons_succ, List.drop_succ_cons,
          List.drop_zero]
        split_ifs <;>
          first
            | omega
            | (congr 1; funext t; simp only [List.cons.injEq, and_true]; omega)

theorem utf8Decode_utf8Encode (s : List Nat) (h : StrOk s) :
    utf8Decode (utf8Encode s) = some s := by
  induction s with
  | nil => simp [utf8Encode, utf8Decode]
  | cons c cs ih =>
    have hc := h c (by simp)
    have hcs : StrOk cs := fun x hx => h x (by simp [hx])
    unfold utf8Encode
    rw [List.flatMap_cons]
    rw [utf8Decode_encodeChar_append c hc.1 hc.2]
    rw [show cs.flatMap utf8EncodeChar = utf8Encode cs from rfl, ih hcs]
    rfl

theorem utf8Encode_byteOk (s : List Nat) (h : StrOk s) : ByteOk (utf8Encode s) := by
  intro b hb
  unfold utf8Encode at hb
  rw [List.mem_flatMap] at hb
  obtain ⟨c, hcs, hbc⟩ := hb
  have hc := h c hcs
  unfold utf8EncodeChar at hbc
  split_ifs at hbc <;> simp only [List.mem_cons, List.not_mem_nil, or_false] at hbc <;>
    rcases hbc with rfl | rfl | rfl | rfl <;> omega

/-! Section: `hmac.compare_digest` -/

/-- CPython `_tscmp` (`hmac.compare_digest`): the result accumulates the OR of
the bytewise XORs over the whole input (no early exit — this is the
constant-time structure of the comparison) and is combined with the length
check. -/
def compare_digest (a b : List Nat) : Bool :=
  (a.length == b.length) &&
  ((List.zipWith (fun x y => x ^^^ y) a b).foldl (fun acc r => acc ||| r) 0 == 0)

theorem lor_eq_zero_iff (a b : Nat) : a ||| b = 0 ↔ a = 0 ∧ b = 0 := by
  constructor
  · intro h
    constructor
    · refine Nat.eq_of_testBit_eq fun i => ?_
      have := congrArg (fun x => Nat.testBit x i) h
      simp [Nat.testBit_or] at this
      simp [this.1]
    · refine Nat.eq_of_testBit_eq fun i => ?_
      have := congrArg (fun x => Nat.testBit x i) h
      simp [Nat.testBit_or] at this
      simp [this.2]
  · rintro ⟨rfl, rfl⟩
    rfl

theorem foldl_lor_eq_zero (l : List Nat) :
    ∀ acc, (l.foldl (fun a r => a ||| r) acc = 0 ↔ acc = 0 ∧ ∀ x ∈ l, x = 0) := by
  induction l with
  | nil => intro acc; simp
  | cons y ys ih =>
    intro acc
    rw [List.foldl_cons, ih (acc ||| y)]
    rw [lor_eq_zero_iff]
    constructor
    · rintro ⟨⟨h1, h2⟩, h3⟩
      refine ⟨h1, fun x hx => ?_⟩
      rw [List.mem_cons] at hx
      rcases hx with rfl | hx
      · exact h2
      · exact h3 x hx
    · rintro ⟨h1, h2⟩
      exact ⟨⟨h1, h2 y (by simp)⟩, fun x hx => h2 x (by simp [hx])⟩

theorem compare_digest_eq_true_iff (a b : List Nat) :
    compare_digest a b = true ↔ a = b := by
  unfold compare_digest
  rw [Bool.and_eq_true, beq_iff_eq, beq_iff_eq, foldl_lor_eq_zero]
  constructor
  · rintro ⟨hlen, -, hall⟩
    induction a generalizing b with
    | nil => cases b with
      | nil => rfl
      | cons y ys => simp at hlen
    | cons x xs ih =>
      cases b with
      | nil => simp at hlen
      | cons y ys =>
        simp only [List.zipWith_cons_cons, List.mem_cons] at hall
        have hxy : x = y := Nat.xor_eq_zero.mp (hall _ (Or.inl rfl))
        have := ih ys (by simpa using hlen) (fun z hz => hall z (Or.inr hz))
        rw [hxy, this]
  · rintro rfl
    refine ⟨rfl, rfl, fun x hx => ?_⟩
    induction a with
    | nil => simp at hx
    | cons y ys ih =>
      simp only [List.zipWith_cons_cons, List.mem_cons, Nat.xor_self] at hx
      rcases hx with rfl | hx
      · rfl
      · exact ih hx

/-! Section: AES-256-CBC with abstract block cipher, HMAC as abstract digest

`cryptography`'s `Cipher(algorithms.AES(key), modes.CBC(iv))` is modelled by
an abstract block function pair: the theorems assume only that for the key in
use the pair is a length-preserving inverse on 16-byte blocks (which the AES
implementation guarantees).  `hmac.new(key, msg, digestmod="sha256").digest()`
is an abstract deterministic function producing a 32-byte digest. -/

structure AesHmacPrims where
  aesEncBlock : List Nat → List Nat → List Nat
  aesDecBlock : List Nat → List Nat → List Nat
  hmacSha256 : List Nat → List Nat → List Nat

/-- The block-cipher contract for a given key. -/
def GoodAes (P : AesHmacPrims) (key : List Nat) : Prop :=
  ∀ b, b.length = 16 → ByteOk b →
    (P.aesEncBlock key b).length = 16 ∧ ByteOk (P.aesEncBlock key b) ∧
    P.aesDecBlock key (P.aesEncBlock key b) = b

/-- The digest contract: HMAC-SHA256 digests are 32 bytes. -/
def GoodHmac (P : AesHmacPrims) : Prop :=
  ∀ key m, (P.hmacSha256 key m).length = 32 ∧ ByteOk (P.hmacSha256 key m)

/-- Bytewise XOR of two equal-length blocks. -/
def zipXor (a b : List Nat) : List Nat := List.zipWith (fun x y => x ^^^ y) a b

theorem zipXor_length (a b : List Nat) : (zipXor a b).length = min a.length b.length := by
  simp [zipXor]

theorem zipXor_byteOk (a b : List Nat) (ha : ByteOk a) (hb : ByteOk b) :
    ByteOk (zipXor a b) := by
  induction a generalizing b with
  | nil => intro z hz; simp [zipXor] at hz
  | cons x xs ih =>
    cases b with
    | nil => intro z hz; simp [zipXor] at hz
    | cons y ys =>
      intro z hz
      simp only [zipXor, List.zipWith_cons_cons, List.mem_cons] at hz
      rcases hz with rfl | hz
      · have hx : x < 256 := ha x (by simp)
        have hy : y < 256 := hb y (by simp)
        exact Nat.xor_lt_two_pow (n := 8) hx hy
      · exact ih ys (fun w hw => ha w (by simp [hw]))
          (fun w hw => hb w (by simp [hw])) z hz

theorem zipXor_cancel (a b : List Nat) (h : b.length ≤ a.length) :
    zipXor a (zipXor a b) = b := by
  induction a generalizing b with
  | nil =>
    cases b with
    | nil => rfl
    | cons y ys => simp at h
  | cons x xs ih =>
    cases b with
    | nil => rfl
    | cons y ys =>
      simp only [zipXor, List.zipWith_cons_cons]
      rw [← Nat.xor_assoc, Nat.xor_self, Nat.zero_xor]
      have := ih ys (by simpa using h)
      simp only [zipXor] at this
      rw [this]

/-- CBC encryption (`encryptor.update(data) + encryptor.finalize()` on data
whose length is a multiple of 16): each plaintext block is XORed with the
previous ciphertext block (initially the IV) and passed through the block
cipher. -/
def cbcEncrypt (E : List Nat → List Nat) (prev data : List Nat) : List Nat :=
  if data = [] then []
  else
    E (zipXor prev (data.take 16)) ++
    cbcEncrypt E (E (zipXor prev (data.take 16))) (data.drop 16)
termination_by data.length
decreasing_by
  rename_i h
  simp only [List.length_drop]
  cases data with
  | nil => exact absurd rfl h
  | cons x xs => simp only [List.length_cons]; omega

/-- CBC decryption body: each ciphertext block is deciphered and XORed with
the previous ciphertext block (initially the IV). -/
def cbcDecryptCore (D : List Nat → List Nat) (prev data : List Nat) : List Nat :=
  if data = [] then []
  else
    zipXor prev (D (data.take 16)) ++
    cbcDecryptCore D (data.take 16) (data.drop 16)
termination_by data.length
decreasing_by
  rename_i h
  simp only [List.length_drop]
  cases data with
  | nil => exact absurd rfl h
  | cons x xs => simp only [List.length_cons]; omega

/-- Model of `decryptor.update(ct) + decryptor.finalize()`: `finalize` raises
`ValueError` when the ciphertext is not a whole number of blocks. -/
def cbcDecrypt (D : List Nat → List Nat) (prev data : List Nat) : Option (List Nat) :=
  if data.length % 16 = 0 then some (cbcDecryptCore D prev data) else none

theorem cbc_roundtrip (E D : List Nat → List Nat)
    (hED : ∀ b, b.length = 16 → ByteOk b →
      (E b).length = 16 ∧ ByteOk (E b) ∧ D (E b) = b) :
    ∀ (N : Nat) (data prev : List Nat), data.length ≤ N → data.length % 16 = 0 →
      ByteOk data → prev.length = 16 → ByteOk prev →
      (cbcEncrypt E prev data).length = data.length ∧
      ByteOk (cbcEncrypt E prev data) ∧
      cbcDecryptCore D prev (cbcEncrypt E prev data) = data := by
  intro N
  induction N with
  | zero =>
    intro data prev hN hmod hd hp1 hp2
    have hnil : data = [] := List.eq_nil_of_length_eq_zero (by omega)
    subst hnil
    refine ⟨by simp [cbcEncrypt], ?_, by simp [cbcEncrypt, cbcDecryptCore]⟩
    intro b hb
    simp [cbcEncrypt] at hb
  | succ N ih =>
    intro data prev hN hmod hd hp1 hp2
    by_cases hnil : data = []
    · subst hnil
      refine ⟨by simp [cbcEncrypt], ?_, by simp [cbcEncrypt, cbcDecryptCore]⟩
      intro b hb
      simp [cbcEncrypt] at hb
    · have hpos : data.length ≠ 0 := by
        intro hc
        exact hnil (List.eq_nil_of_length_eq_zero hc)
      have hlen : 16 ≤ data.length := by omega
      have hblk_len : (data.take 16).length = 16 := by
        simp [List.length_take]
        omega
      have hblk_ok : ByteOk (data.take 16) := fun b hb => hd b (List.mem_of_mem_take hb)
      have hx_len : (zipXor prev (data.take 16)).length = 16 := by
        rw [zipXor_length]
        omega
      have hx_ok : ByteOk (zipXor prev (data.take 16)) := zipXor_byteOk _ _ hp2 hblk_ok
      obtain ⟨hc_len, hc_ok, hDc⟩ := hED _ hx_len hx_ok
      have hdrop_mod : (data.drop 16).length % 16 = 0 := by
        simp [List.length_drop]
        omega
      have hdrop_ok : ByteOk (data.drop 16) := fun b hb => hd b (List.mem_of_mem_drop hb)
      have hdrop_N : (data.drop 16).length ≤ N := by
        simp [List.length_drop]
        omega
      obtain ⟨ih_len, ih_ok, ih_rt⟩ :=
        ih (data.drop 16) (E (zipXor prev (data.take 16))) hdrop_N hdrop_mod hdrop_ok
          hc_len hc_ok
      have henc : cbcEncrypt E prev data =
          E (zipXor prev (data.take 16)) ++
          cbcEncrypt E (E (zipXor prev (data.take 16))) (data.drop 16) := by
        rw [cbcEncrypt, if_neg hnil]
      refine ⟨?_, ?_, ?_⟩
      · rw [henc]
        simp only [List.length_append, hc_len, ih_len, List.length_drop]
        omega
      · rw [henc]
        intro b hb
        rw [List.mem_append] at hb
        rcases hb with hb | hb
        · exact hc_ok b hb
        · exact ih_ok b hb
      · rw [henc]
        have hne : E (zipXor prev (data.take 16)) ++
            cbcEncrypt E (E (zipXor prev (data.take 16))) (data.drop 16) ≠ [] := by
          intro hcon
          have := congrArg List.length hcon
          simp only [List.length_append, hc_len, List.length_nil] at this
          omega
        rw [cbcDecryptCore, if_neg hne]
        rw [List.take_left' hc_len, List.drop_left' hc_len]
        rw [hDc, zipXor_cancel prev _ (by omega), ih_rt]
        exact List.take_append_drop 16 data

/-! Section: Encrypt-then-MAC (`encrypt_aes_etm`, `decrypt_aes_etm`) -/

theorem pkcs7_pad_length_mod (data : List Nat) : (pkcs7_pad data 16).length % 16 = 0 := by
  simp only [pkcs7_pad, List.length_append, List.length_replicate]
  omega

theorem pkcs7_pad_byteOk (data : List Nat) (h : ByteOk data) : ByteOk (pkcs7_pad data 16) := by
  intro b hb
  simp only [pkcs7_pad, List.mem_append, List.mem_replicate] at hb
  rcases hb with hb | hb
  · exact h b hb
  · omega

/-- The four base64 fields returned by `encrypt_aes_etm`.  The source draws
`key` and `iv` from `os.urandom`; the embedding takes them as arguments
(theorems carry their length and byte-range facts as hypotheses). -/
structure EncBundle where
  ciphertext_b64 : List Nat
  iv_b64 : List Nat
  key_b64 : List Nat
  mac_b64 : List Nat
deriving DecidableEq

/-- The AES-CBC ciphertext of `encrypt_aes_etm`:
`encryptor.update(pkcs7_pad(plaintext.encode("utf-8"))) + encryptor.finalize()`. -/
def aesCt (P : AesHmacPrims) (key iv plaintext : List Nat) : List Nat :=
  cbcEncrypt (P.aesEncBlock key) iv (pkcs7_pad (utf8Encode plaintext) 16)

/-- Source `encrypt_aes_etm(plaintext)`: AES-256-CBC over the PKCS#7-padded UTF-8
plaintext, then `mac = HMAC-SHA256(key, iv + ct)`, all fields base64. -/
def encrypt_aes_etm (P : AesHmacPrims) (key iv plaintext : List Nat) : EncBundle :=
  { ciphertext_b64 := b64e (aesCt P key iv plaintext)
    iv_b64 := b64e iv
    key_b64 := b64e key
    mac_b64 := b64e (P.hmacSha256 key (iv ++ aesCt P key iv plaintext)) }

/-- The distinct internal failure conditions of `decrypt_aes_etm` (all of
them are printed and collapsed to `None` by the `except` clause). -/
inductive DecErr where
  | badB64
  | macMismatch
  | badKeyLen
  | badIvLen
  | badCtLen
  | badPad
  | badUtf8
deriving DecidableEq

/-- Source `decrypt_aes_etm` before its `except Exception` clause: decode the four
fields (in source order: key, iv, ct, mac), recompute the HMAC and compare
with `hmac.compare_digest`, returning at once on mismatch; only then
construct the cipher (`algorithms.AES` validates the key length, `modes.CBC`
the IV length), CBC-decrypt, unpad, and UTF-8-decode. -/
def decrypt_aes_etmE (P : AesHmacPrims)
    (ciphertext_b64 iv_b64 mac_b64 key_b64 : List Nat) : Except DecErr (List Nat) :=
  match b64d key_b64 with
  | none => Except.error DecErr.badB64
  | some key =>
    match b64d iv_b64 with
    | none => Except.error DecErr.badB64
    | some iv =>
      match b64d ciphertext_b64 with
      | none => Except.error DecErr.badB64
      | some ct =>
        match b64d mac_b64 with
        | none => Except.error DecErr.badB64
        | some mac_expected =>
          if compare_digest (P.hmacSha256 key (iv ++ ct)) mac_expected = false then
            Except.error DecErr.macMismatch
          else if ¬(key.length = 16 ∨ key.length = 24 ∨ key.length = 32) then
            Except.error DecErr.badKeyLen
          else if iv.length ≠ 16 then Except.error DecErr.badIvLen
          else
            match cbcDecrypt (P.aesDecBlock key) iv ct with
            | none => Except.error DecErr.badCtLen
            | some padded =>
              match pkcs7_unpad padded 16 with
              | none => Except.error DecErr.badPad
              | some ptBytes =>
                match utf8Decode ptBytes with
                | none => Except.error DecErr.badUtf8
                | some pt => Except.ok pt

/-- Source `decrypt_aes_etm`: the `try`/`except` wrapper collapses every failure to
`None`. -/
def decrypt_aes_etm (P : AesHmacPrims)
    (ciphertext_b64 iv_b64 mac_b64 key_b64 : List Nat) : Option (List Nat) :=
  (decrypt_aes_etmE P ciphertext_b64 iv_b64 mac_b64 key_b64).toOption

theorem decrypt_aes_etmE_eq (P : AesHmacPrims) (cb ib mb kb key iv ct mac : List Nat)
    (hk : b64d kb = some key) (hi : b64d ib = some iv)
    (hc : b64d cb = some ct) (hm : b64d mb = some mac) :
    decrypt_aes_etmE P cb ib mb kb =
      (if compare_digest (P.hmacSha256 key (iv ++ ct)) mac = false then
        Except.error DecErr.macMismatch
      else if ¬(key.length = 16 ∨ key.length = 24 ∨ key.length = 32) then
        Except.error DecErr.badKeyLen
      else if iv.length ≠ 16 then Except.error DecErr.badIvLen
      else
        match cbcDecrypt (P.aesDecBlock key) iv ct with
        | none => Except.error DecErr.badCtLen
        | some padded =>
          match pkcs7_unpad padded 16 with
          | none => Except.error DecErr.badPad
          | some ptBytes =>
            match utf8Decode ptBytes with
            | none => Except.error DecErr.badUtf8
            | some pt => Except.ok pt) := by
  unfold decrypt_aes_etmE
  rw [hk, hi, hc, hm]

theorem etm_roundtrip (P : AesHmacPrims) (key iv pt : List Nat)
    (hkl : key.length = 32) (hko : ByteOk key)
    (hil : iv.length = 16) (hio : ByteOk iv)
    (hpt : StrOk pt) (hAes : GoodAes P key) (hH : GoodHmac P) :
    decrypt_aes_etm P (encrypt_aes_etm P key iv pt).ciphertext_b64
      (encrypt_aes_etm P key iv pt).iv_b64
      (encrypt_aes_etm P key iv pt).mac_b64
      (encrypt_aes_etm P key iv pt).key_b64 = some pt := by
  have hpad_ok : ByteOk (pkcs7_pad (utf8Encode pt) 16) :=
    pkcs7_pad_byteOk _ (utf8Encode_byteOk pt hpt)
  have hpad_mod : (pkcs7_pad (utf8Encode pt) 16).length % 16 = 0 :=
    pkcs7_pad_length_mod _
  obtain ⟨hct_len, hct_ok, hct_rt⟩ :=
    cbc_roundtrip (P.aesEncBlock key) (P.aesDecBlock key) hAes
      (pkcs7_pad (utf8Encode pt) 16).length (pkcs7_pad (utf8Encode pt) 16) iv
      (le_refl _) hpad_mod hpad_ok hil hio
  have hmac_ok : ByteOk (P.hmacSha256 key (iv ++ aesCt P key iv pt)) := (hH key _).2
  unfold decrypt_aes_etm
  rw [show (encrypt_aes_etm P key iv pt).ciphertext_b64 = b64e (aesCt P key iv pt) from rfl,
      show (encrypt_aes_etm P key iv pt).iv_b64 = b64e iv from rfl,
      show (encrypt_aes_etm P key iv pt).key_b64 = b64e key from rfl,
      show (encrypt_aes_etm P key iv pt).mac_b64 =
        b64e (P.hmacSha256 key (iv ++ aesCt P key iv pt)) from rfl]
  rw [decrypt_aes_etmE_eq P _ _ _ _ key iv (aesCt P key iv pt)
        (P.hmacSha256 key (iv ++ aesCt P key iv pt))
        (b64d_b64e key hko) (b64d_b64e iv hio) (b64d_b64e _ hct_ok) (b64d_b64e _ hmac_ok)]
  rw [if_neg (by simp [compare_digest_eq_true_iff])]
  rw [if_neg (by simp [hkl])]
  rw [if_neg (by simp [hil])]
  have hmod2 : (aesCt P key iv pt).length % 16 = 0 := by
    rw [show aesCt P key iv pt =
      cbcEncrypt (P.aesEncBlock key) iv (pkcs7_pad (utf8Encode pt) 16) from rfl, hct_len]
    exact hpad_mod
  unfold cbcDecrypt
  rw [if_pos hmod2]
  simp only [show cbcDecryptCore (P.aesDecBlock key) iv (aesCt P key iv pt) =
      pkcs7_pad (utf8Encode pt) 16 from hct_rt,
    pkcs7_unpad_pkcs7_pad, utf8Decode_utf8Encode pt hpt, Except.toOption]

/-- Concrete primitive instance used by witnesses: the identity block cipher
and a constant 32-byte digest (both satisfy the contracts `GoodAes` and
`GoodHmac`). -/
def idPrims : AesHmacPrims :=
  { aesEncBlock := fun _ b => b
    aesDecBlock := fun _ b => b
    hmacSha256 := fun _ _ => List.replicate 32 0 }

theorem goodAes_idPrims (key : List Nat) : GoodAes idPrims key :=
  fun _ h1 h2 => ⟨h1, h2, rfl⟩

theorem goodHmac_idPrims : GoodHmac idPrims := by
  intro key m
  refine ⟨by simp [idPrims], ?_⟩
  intro b hb
  simp only [idPrims, List.mem_replicate] at hb
  omega

/-- C1: for every plaintext (any list of Unicode scalar values, the empty
string and multi-block strings included) and every fresh 32-byte key and
16-byte IV, `decrypt_aes_etm` applied to the four base64 fields returned by
`encrypt_aes_etm` returns exactly the plaintext, for any block cipher and
digest satisfying the library contracts. -/
theorem encrypt_decrypt_roundtrip (P : AesHmacPrims) (key iv pt : List Nat)
    (hkl : key.length = 32) (hko : ByteOk key)
    (hil : iv.length = 16) (hio : ByteOk iv)
    (hpt : StrOk pt) (hAes : GoodAes P key) (hH : GoodHmac P) :
    decrypt_aes_etm P (encrypt_aes_etm P key iv pt).ciphertext_b64
      (encrypt_aes_etm P key iv pt).iv_b64
      (encrypt_aes_etm P key iv pt).mac_b64
      (encrypt_aes_etm P key iv pt).key_b64 = some pt :=
  etm_roundtrip P key iv pt hkl hko hil hio hpt hAes hH

/-- Witness for C1: a concrete multi-block Unicode plaintext (21 UTF-8 bytes,
containing 2-byte and 3-byte characters) round-trips at a concrete key/IV
under the identity cipher instance. -/
theorem encrypt_decrypt_roundtrip_witness :
    StrOk [72, 101, 108, 108, 111, 32, 233, 8364, 55, 55, 55, 55, 55, 55, 55, 55] ∧
    decrypt_aes_etm idPrims
      (encrypt_aes_etm idPrims (List.replicate 32 0) (List.replicate 16 0)
        [72, 101, 108, 108, 111, 32, 233, 8364, 55, 55, 55, 55, 55, 55, 55, 55]).ciphertext_b64
      (encrypt_aes_etm idPrims (List.replicate 32 0) (List.replicate 16 0)
        [72, 101, 108, 108, 111, 32, 233, 8364, 55, 55, 55, 55, 55, 55, 55, 55]).iv_b64
      (encrypt_aes_etm idPrims (List.replicate 32 0) (List.replicate 16 0)
        [72, 101, 108, 108, 111, 32, 233, 8364, 55, 55, 55, 55, 55, 55, 55, 55]).mac_b64
      (encrypt_aes_etm idPrims (List.replicate 32 0) (List.replicate 16 0)
        [72, 101, 108, 108, 111, 32, 233, 8364, 55, 55, 55, 55, 55, 55, 55, 55]).key_b64
      = some [72, 101, 108, 108, 111, 32, 233, 8364, 55, 55, 55, 55, 55, 55, 55, 55] :=
  ⟨by decide,
   encrypt_decrypt_roundtrip idPrims (List.replicate 32 0) (List.replicate 16 0)
     [72, 101, 108, 108, 111, 32, 233, 8364, 55, 55, 55, 55, 55, 55, 55, 55]
     (by decide) (by decide) (by decide) (by decide) (by decide)
     (goodAes_idPrims _) goodHmac_idPrims⟩

/-- C2: whenever the recomputed `HMAC-SHA256(key, iv + ct)` differs from the
supplied MAC, `decrypt_aes_etm` stops with the MAC-mismatch failure (`None`
after the `except` clause), and the result is the same for every choice of
AES block functions — i.e. no AES decryption, unpadding or UTF-8 decoding
influences it (fail closed).  The comparison the source uses,
`hmac.compare_digest`, is the constant-time accumulate-all-bytes comparison,
whose functional content (`true` exactly on equal byte strings) is the last
conjunct. -/
theorem mac_mismatch_fails_closed (P P2 : AesHmacPrims)
    (cb ib mb kb key iv ct mac : List Nat)
    (hk : b64d kb = some key) (hi : b64d ib = some iv)
    (hc : b64d cb = some ct) (hm : b64d mb = some mac)
    (hmm : P.hmacSha256 key (iv ++ ct) ≠ mac)
    (hsame : P2.hmacSha256 = P.hmacSha256) :
    decrypt_aes_etmE P2 cb ib mb kb = Except.error DecErr.macMismatch ∧
    decrypt_aes_etm P2 cb ib mb kb = none ∧
    (∀ a b : List Nat, compare_digest a b = true ↔ a = b) := by
  have hcmp : compare_digest (P2.hmacSha256 key (iv ++ ct)) mac = false := by
    rw [hsame, Bool.eq_false_iff]
    intro h
    exact hmm ((compare_digest_eq_true_iff _ _).mp h)
  have hE : decrypt_aes_etmE P2 cb ib mb kb = Except.error DecErr.macMismatch := by
    rw [decrypt_aes_etmE_eq P2 cb ib mb kb key iv ct mac hk hi hc hm, if_pos hcmp]
  refine ⟨hE, ?_, compare_digest_eq_true_iff⟩
  unfold decrypt_aes_etm
  rw [hE]
  rfl

/-- Witness for C2: with all four fields the empty string (each decodes to
the empty byte string) and the constant-digest instance, the recomputed MAC
(32 zero bytes) differs from the supplied empty MAC, and decryption fails
closed. -/
theorem mac_mismatch_fails_closed_witness :
    decrypt_aes_etmE idPrims [] [] [] [] = Except.error DecErr.macMismatch ∧
    decrypt_aes_etm idPrims [] [] [] [] = none ∧
    (∀ a b : List Nat, compare_digest a b = true ↔ a = b) :=
  mac_mismatch_fails_closed idPrims idPrims [] [] [] [] [] [] [] []
    (by decide) (by decide) (by decide) (by decide) (by decide) rfl

/-- C10: `decrypt_aes_etm` is the total collapse of the staged computation
`decrypt_aes_etmE` — whatever internal failure occurs (bad base64 in any
field, MAC mismatch, bad key/IV/ciphertext length, bad padding, bad UTF-8),
the caller-visible result is the single value `None`, so two failures of
different kinds (even on different inputs or primitives) are
indistinguishable by the return value. -/
theorem decrypt_total_indistinguishable (P Q : AesHmacPrims)
    (cb ib mb kb cb2 ib2 mb2 kb2 : List Nat) (e1 e2 : DecErr)
    (h1 : decrypt_aes_etmE P cb ib mb kb = Except.error e1)
    (h2 : decrypt_aes_etmE Q cb2 ib2 mb2 kb2 = Except.error e2) :
    decrypt_aes_etm P cb ib mb kb = none ∧
    decrypt_aes_etm Q cb2 ib2 mb2 kb2 = none ∧
    decrypt_aes_etm P cb ib mb kb = decrypt_aes_etm Q cb2 ib2 mb2 kb2 := by
  unfold decrypt_aes_etm
  rw [h1, h2]
  exact ⟨rfl, rfl, rfl⟩

/-- Witness for C10: a base64 failure (`"a"` in the key field) and a MAC
mismatch (all fields empty) both surface as `None`. -/
theorem decrypt_total_indistinguishable_witness :
    decrypt_aes_etm idPrims [] [] [] [97] = none ∧
    decrypt_aes_etm idPrims [] [] [] [] = none :=
  have h := decrypt_total_indistinguishable idPrims idPrims
    [] [] [] [97] [] [] [] [] DecErr.badB64 DecErr.macMismatch rfl rfl
  ⟨h.1, h.2.1⟩

/-! Section: RSA-OAEP key wrap (`rsa_encrypt_b64`, `rsa_decrypt_to_b64`)

`pub.encrypt(raw, OAEP(SHA-256, MGF1-SHA256))` and
`private_key.decrypt(enc, OAEP(...))` are abstract functions `E` and `D`; the
OAEP contract assumed by theorems is `D (E raw) = some raw` for the wrapped
key, with `D` returning `none` for a failed decryption (`UnwrapError`). -/

/-- Source `rsa_encrypt_b64(data_b64, pem)`: base64-decode the payload (an uncaught
exception — `none` — if malformed), RSA-OAEP-encrypt, re-encode. -/
def rsa_encrypt_b64 (E : List Nat → List Nat) (data_b64 : List Nat) : Option (List Nat) :=
  (b64d data_b64).map (fun raw => b64e (E raw))

/-- Source `rsa_decrypt_to_b64(encrypted_b64)`: base64-decode, RSA-OAEP-decrypt with
the private key, and return base64 of the raw bytes (the source deliberately
never UTF-8-decodes the result). -/
def rsa_decrypt_to_b64 (D : List Nat → Option (List Nat))
    (encrypted_b64 : List Nat) : Option (List Nat) :=
  (b64d encrypted_b64).bind (fun enc => (D enc).map (fun raw => b64e raw))

/-- C4: for every 32-byte key given as (canonical) base64 and every OAEP
pair whose private operation inverts the public one,
`rsa_decrypt_to_b64 (rsa_encrypt_b64 K_b64)` returns exactly `K_b64`,
base64-for-base64; moreover the unwrap output is always the base64 of the
raw decrypted bytes, whatever bytes those are (no UTF-8 decoding — the
second conjunct holds even for byte strings that are not valid UTF-8). -/
theorem rsa_wrap_unwrap_roundtrip (E : List Nat → List Nat)
    (D : List Nat → Option (List Nat)) (K : List Nat)
    (hK_len : K.length = 32) (hK_ok : ByteOk K)
    (hE_ok : ByteOk (E K)) (hD : D (E K) = some K) :
    (rsa_encrypt_b64 E (b64e K) = some (b64e (E K)) ∧
      rsa_decrypt_to_b64 D (b64e (E K)) = some (b64e K)) ∧
    (∀ (D2 : List Nat → Option (List Nat)) (s bs raw : List Nat),
      b64d s = some bs → D2 bs = some raw →
      rsa_decrypt_to_b64 D2 s = some (b64e raw)) := by
  refine ⟨⟨?_, ?_⟩, ?_⟩
  · unfold rsa_encrypt_b64
    rw [b64d_b64e K hK_ok]
    rfl
  · unfold rsa_decrypt_to_b64
    rw [b64d_b64e _ hE_ok]
    simp [hD]
  · intro D2 s bs raw hs hD2
    unfold rsa_decrypt_to_b64
    rw [hs]
    simp [hD2]

/-- Witness for C4: the all-zero 32-byte key under the identity OAEP pair,
and an unwrap returning the non-UTF-8 byte `0xFF`, whose base64 `"/w=="` is
returned without any text decoding. -/
theorem rsa_wrap_unwrap_roundtrip_witness :
    (rsa_encrypt_b64 (fun x => x) (b64e (List.replicate 32 0)) =
        some (b64e (List.replicate 32 0)) ∧
      rsa_decrypt_to_b64 (fun x => some x) (b64e (List.replicate 32 0)) =
        some (b64e (List.replicate 32 0))) ∧
    rsa_decrypt_to_b64 (fun _ => some [255]) [] = some [47, 119, 61, 61] :=
  have h := rsa_wrap_unwrap_roundtrip (fun x => x) (fun x => some x)
    (List.replicate 32 0) (by decide) (by decide) (by decide) rfl
  ⟨h.1, h.2 (fun _ => some [255]) [] [] [255] (by decide) rfl⟩

/-! Section: Envelope assembler (`build_ws_payload_for_relay`) -/

/-- Source `build_ws_payload_for_relay(plaintext, sender_pem, receiver_pem)`:
encrypt once with a fresh AES key, wrap the key once per party (receiver
first, as in the source), and return the five RN-named fields.  A dict
literal is modelled as an association list in the source's field order;
the abstract wrap functions `Es`/`Er` stand for RSA-OAEP under the two
public keys.  `none` models an uncaught exception from a failed wrap. -/
def build_ws_payload_for_relay (P : AesHmacPrims) (Es Er : List Nat → List Nat)
    (key iv plaintext : List Nat) : Option (List (String × List Nat)) :=
  (rsa_encrypt_b64 Er (encrypt_aes_etm P key iv plaintext).key_b64).bind fun enc_for_receiver =>
    (rsa_encrypt_b64 Es (encrypt_aes_etm P key iv plaintext).key_b64).map fun enc_for_sender =>
      [("encrypted_message", (encrypt_aes_etm P key iv plaintext).ciphertext_b64),
       ("iv", (encrypt_aes_etm P key iv plaintext).iv_b64),
       ("mac", (encrypt_aes_etm P key iv plaintext).mac_b64),
       ("encrypted_key_for_receiver", enc_for_receiver),
       ("encrypted_key_for_sender", enc_for_sender)]

/-- C3: for every plaintext, fresh key/IV and pair of wrap/unwrap functions
for the sender and the receiver, the relay bundle contains exactly the five
RN fields (so no `key_b64` field appears in it), unwrapping
`encrypted_key_for_sender` with the sender's private operation and
`encrypted_key_for_receiver` with the receiver's yields the same raw key
(base64 of the AES key), and that key decrypts the bundle's ciphertext back
to the plaintext. -/
theorem build_ws_payload_two_wraps (P : AesHmacPrims)
    (Es Er : List Nat → List Nat) (Ds Dr : List Nat → Option (List Nat))
    (key iv pt : List Nat)
    (hkl : key.length = 32) (hko : ByteOk key)
    (hil : iv.length = 16) (hio : ByteOk iv)
    (hpt : StrOk pt) (hAes : GoodAes P key) (hH : GoodHmac P)
    (hEs_ok : ByteOk (Es key)) (hEr_ok : ByteOk (Er key))
    (hDs : Ds (Es key) = some key) (hDr : Dr (Er key) = some key) :
    build_ws_payload_for_relay P Es Er key iv pt =
      some [("encrypted_message", (encrypt_aes_etm P key iv pt).ciphertext_b64),
            ("iv", (encrypt_aes_etm P key iv pt).iv_b64),
            ("mac", (encrypt_aes_etm P key iv pt).mac_b64),
            ("encrypted_key_for_receiver", b64e (Er key)),
            ("encrypted_key_for_sender", b64e (Es key))] ∧
    rsa_decrypt_to_b64 Ds (b64e (Es key)) = some ((encrypt_aes_etm P key iv pt).key_b64) ∧
    rsa_decrypt_to_b64 Dr (b64e (Er key)) = some ((encrypt_aes_etm P key iv pt).key_b64) ∧
    decrypt_aes_etm P (encrypt_aes_etm P key iv pt).ciphertext_b64
      (encrypt_aes_etm P key iv pt).iv_b64
      (encrypt_aes_etm P key iv pt).mac_b64
      (encrypt_aes_etm P key iv pt).key_b64 = some pt ∧
    (∀ v : List Nat,
      ¬(("key_b64", v) ∈
        [("encrypted_message", (encrypt_aes_etm P key iv pt).ciphertext_b64),
         ("iv", (encrypt_aes_etm P key iv pt).iv_b64),
         ("mac", (encrypt_aes_etm P key iv pt).mac_b64),
         ("encrypted_key_for_receiver", b64e (Er key)),
         ("encrypted_key_for_sender", b64e (Es key))])) := by
  have hkey_field : (encrypt_aes_etm P key iv pt).key_b64 = b64e key := rfl
  refine ⟨?_, ?_, ?_, etm_roundtrip P key iv pt hkl hko hil hio hpt hAes hH, ?_⟩
  · unfold build_ws_payload_for_relay rsa_encrypt_b64
    rw [hkey_field, b64d_b64e key hko]
    rfl
  · unfold rsa_decrypt_to_b64
    rw [b64d_b64e _ hEs_ok]
    simp [hDs, hkey_field]
  · unfold rsa_decrypt_to_b64
    rw [b64d_b64e _ hEr_ok]
    simp [hDr, hkey_field]
  · intro v hv
    simp only [List.mem_cons, List.not_mem_nil, or_false, Prod.mk.injEq] at hv
    rcases hv with ⟨h, -⟩ | ⟨h, -⟩ | ⟨h, -⟩ | ⟨h, -⟩ | ⟨h, -⟩ <;> exact absurd h (by decide)

/-- Witness for C3: concrete all-zero key and IV, plaintext `"hi"`, identity
wrap functions for both parties. -/
theorem build_ws_payload_two_wraps_witness :
    build_ws_payload_for_relay idPrims (fun x => x) (fun x => x)
        (List.replicate 32 0) (List.replicate 16 0) [104, 105] =
      some [("encrypted_message",
              (encrypt_aes_etm idPrims (List.replicate 32 0) (List.replicate 16 0)
                [104, 105]).ciphertext_b64),
            ("iv", (encrypt_aes_etm idPrims (List.replicate 32 0) (List.replicate 16 0)
                [104, 105]).iv_b64),
            ("mac", (encrypt_aes_etm idPrims (List.replicate 32 0) (List.replicate 16 0)
                [104, 105]).mac_b64),
            ("encrypted_key_for_receiver", b64e (List.replicate 32 0)),
            ("encrypted_key_for_sender", b64e (List.replicate 32 0))] ∧
    rsa_decrypt_to_b64 (fun x => some x) (b64e (List.replicate 32 0)) =
      some ((encrypt_aes_etm idPrims (List.replicate 32 0) (List.replicate 16 0)
        [104, 105]).key_b64) ∧
    decrypt_aes_etm idPrims
      (encrypt_aes_etm idPrims (List.replicate 32 0) (List.replicate 16 0)
        [104, 105]).ciphertext_b64
      (encrypt_aes_etm idPrims (List.replicate 32 0) (List.replicate 16 0)
        [104, 105]).iv_b64
      (encrypt_aes_etm idPrims (List.replicate 32 0) (List.replicate 16 0)
        [104, 105]).mac_b64
      (encrypt_aes_etm idPrims (List.replicate 32 0) (List.replicate 16 0)
        [104, 105]).key_b64 = some [104, 105] :=
  have h := build_ws_payload_two_wraps idPrims (fun x => x) (fun x => x)
    (fun x => some x) (fun x => some x)
    (List.replicate 32 0) (List.replicate 16 0) [104, 105]
    (by decide) (by decide) (by decide) (by decide) (by decide)
    (goodAes_idPrims _) goodHmac_idPrims (by decide) (by decide) rfl rfl
  ⟨h.1, h.2.1, h.2.2.2.1⟩

/-! Section: Debug unwrap path (`server_debug_decrypt_if_addressed_to_server`) -/

/-- Python's `or` on two `dict.get` results: the left value is kept only when
it is truthy (present and non-empty). -/
def pyOr (a b : Option (List Nat)) : Option (List Nat) :=
  match a with
  | some v => if v = [] then b else some v
  | none => b

/-- The wrap-selection expression of the source:
`payload.get("encrypted_key_for_me") or payload.get("encrypted_key_for_receiver")
or payload.get("encrypted_key_for_sender") or payload.get("encrypted_key")`. -/
def selectWrap (payload : List (String × List Nat)) : Option (List Nat) :=
  pyOr (payload.lookup "encrypted_key_for_me")
    (pyOr (payload.lookup "encrypted_key_for_receiver")
      (pyOr (payload.lookup "encrypted_key_for_sender")
        (payload.lookup "encrypted_key")))

/-- Source `server_debug_decrypt_if_addressed_to_server(payload)`: pick a wrap with
the `or` chain, return `None` when the result is falsy (`if not wrap`),
unwrap with the server private key (`Dsrv`), read the three bundle fields
(a missing one is a `KeyError`, caught by the `except` clause), and
symmetric-decrypt; every exception becomes `None`. -/
def server_debug_decrypt_if_addressed_to_server (P : AesHmacPrims)
    (Dsrv : List Nat → Option (List Nat)) (payload : List (String × List Nat)) :
    Option (List Nat) :=
  match selectWrap payload with
  | none => none
  | some wrap =>
    if wrap = [] then none
    else
      match rsa_decrypt_to_b64 Dsrv wrap with
      | none => none
      | some key_b64 =>
        match payload.lookup "encrypted_message", payload.lookup "iv",
              payload.lookup "mac" with
        | some cb, some ib, some mb => decrypt_aes_etm P cb ib mb key_b64
        | _, _, _ => none

/-- The claim's selection rule, taken literally: the first wrap field
*present* in the fixed preference order, regardless of its value. -/
def firstPresentWrap (payload : List (String × List Nat)) : Option (List Nat) :=
  match payload.lookup "encrypted_key_for_me" with
  | some v => some v
  | none =>
    match payload.lookup "encrypted_key_for_receiver" with
    | some v => some v
    | none =>
      match payload.lookup "encrypted_key_for_sender" with
      | some v => some v
      | none => payload.lookup "encrypted_key"

/-- The debug helper as the claim describes it: select the first *present*
wrap field, convert every downstream failure to `None`. -/
def server_debug_decrypt_claimed (P : AesHmacPrims)
    (Dsrv : List Nat → Option (List Nat)) (payload : List (String × List Nat)) :
    Option (List Nat) :=
  match firstPresentWrap payload with
  | none => none
  | some wrap =>
    match rsa_decrypt_to_b64 Dsrv wrap with
    | none => none
    | some key_b64 =>
      match payload.lookup "encrypted_message", payload.lookup "iv",
            payload.lookup "mac" with
      | some cb, some ib, some mb => decrypt_aes_etm P cb ib mb key_b64
      | _, _, _ => none

/-- Keep an optional wrap only when present and non-empty (Python truthiness
of a `str`). -/
def normWrap (x : Option (List Nat)) : Option (List Nat) :=
  match x with
  | none => none
  | some w => if w = [] then none else some w

/-- First-`some` choice. -/
def orO (a b : Option (List Nat)) : Option (List Nat) :=
  match a with
  | some v => some v
  | none => b

/-- Lookup that ignores fields holding the empty string. -/
def nonEmptyLookup (payload : List (String × List Nat)) (k : String) : Option (List Nat) :=
  normWrap (payload.lookup k)

/-- The amended selection rule: the first wrap field present *with a
non-empty value* in the fixed preference order. -/
def firstNonEmptyWrap (payload : List (String × List Nat)) : Option (List Nat) :=
  orO (nonEmptyLookup payload "encrypted_key_for_me")
    (orO (nonEmptyLookup payload "encrypted_key_for_receiver")
      (orO (nonEmptyLookup payload "encrypted_key_for_sender")
        (nonEmptyLookup payload "encrypted_key")))

/-- The debug helper as the amended claim describes it. -/
def server_debug_decrypt_amended (P : AesHmacPrims)
    (Dsrv : List Nat → Option (List Nat)) (payload : List (String × List Nat)) :
    Option (List Nat) :=
  match firstNonEmptyWrap payload with
  | none => none
  | some wrap =>
    match rsa_decrypt_to_b64 Dsrv wrap with
    | none => none
    | some key_b64 =>
      match payload.lookup "encrypted_message", payload.lookup "iv",
            payload.lookup "mac" with
      | some cb, some ib, some mb => decrypt_aes_etm P cb ib mb key_b64
      | _, _, _ => none

theorem normWrap_pyOr (a b : Option (List Nat)) :
    normWrap (pyOr a b) = orO (normWrap a) (normWrap b) := by
  rcases a with _ | v
  · rfl
  · by_cases hv : v = [] <;> simp [pyOr, normWrap, orO, hv]

theorem normWrap_selectWrap (payload : List (String × List Nat)) :
    normWrap (selectWrap payload) = firstNonEmptyWrap payload := by
  unfold selectWrap firstNonEmptyWrap nonEmptyLookup
  rw [normWrap_pyOr, normWrap_pyOr, normWrap_pyOr]

/-- C9 (amended): the debug helper is a total function returning a plaintext
or `None` (exceptions are modelled away by `Option`: every internal failure —
absent wrap, failed unwrap, missing bundle field, failed decrypt — produces
`None`), and it behaves exactly like the amended specification: the wrap
used is the first field present *with a non-empty value* in the preference
order `encrypted_key_for_me`, `encrypted_key_for_receiver`,
`encrypted_key_for_sender`, `encrypted_key`; when no such field is present
the result is `None`. -/
theorem server_debug_decrypt_matches_amended (P : AesHmacPrims)
    (Dsrv : List Nat → Option (List Nat)) (payload : List (String × List Nat)) :
    server_debug_decrypt_if_addressed_to_server P Dsrv payload =
      server_debug_decrypt_amended P Dsrv payload := by
  unfold server_debug_decrypt_if_addressed_to_server server_debug_decrypt_amended
  rcases hsel : selectWrap payload with _ | wrap
  · have hf : firstNonEmptyWrap payload = none := by
      rw [← normWrap_selectWrap, hsel]
      rfl
    rw [hf]
  · by_cases hw : wrap = []
    · subst hw
      have hf : firstNonEmptyWrap payload = none := by
        rw [← normWrap_selectWrap, hsel]
        rfl
      rw [hf]
      simp
    · have hf : firstNonEmptyWrap payload = some wrap := by
        rw [← normWrap_selectWrap, hsel]
        simp [normWrap, hw]
      rw [hf]
      simp [hw]

/-- The server unwrap used in the C9 counterexample: fails on an empty
ciphertext (as RSA-OAEP does), otherwise returns the all-zero 32-byte key. -/
def cexDsrv (bs : List Nat) : Option (List Nat) :=
  if bs = [] then none else some (List.replicate 32 0)

/-- The C9 counterexample payload: the first wrap field in the preference
order is present but holds the empty string; a later wrap field holds a
valid wrap (`"AAAA"`, unwrapped by `cexDsrv` to the bundle's key). -/
def cexPayload : List (String × List Nat) :=
  [("encrypted_key_for_me", []),
   ("encrypted_key_for_sender", [65, 65, 65, 65]),
   ("encrypted_message",
     (encrypt_aes_etm idPrims (List.replicate 32 0) (List.replicate 16 0)
       [104, 105]).ciphertext_b64),
   ("iv",
     (encrypt_aes_etm idPrims (List.replicate 32 0) (List.replicate 16 0)
       [104, 105]).iv_b64),
   ("mac",
     (encrypt_aes_etm idPrims (List.replicate 32 0) (List.replicate 16 0)
       [104, 105]).mac_b64)]

/-- Counterexample to C9: on `cexPayload` the source skips the *present*
first wrap field (its value is the falsy empty string, rejected by the `or`
chain) and decrypts via the later field, while the claimed selection rule
("the first wrap field present") picks the empty field and yields `None`:
the selection differs, and so do the end-to-end results. -/
theorem server_debug_decrypt_counterexample :
    selectWrap cexPayload ≠ firstPresentWrap cexPayload ∧
    server_debug_decrypt_if_addressed_to_server idPrims cexDsrv cexPayload =
      some [104, 105] ∧
    server_debug_decrypt_claimed idPrims cexDsrv cexPayload = none := by
  refine ⟨?_, ?_, ?_⟩
  · have h1 : selectWrap cexPayload = some [65, 65, 65, 65] := rfl
    have h2 : firstPresentWrap cexPayload = some [] := rfl
    rw [h1, h2]
    simp
  · have hstep : server_debug_decrypt_if_addressed_to_server idPrims cexDsrv cexPayload =
        decrypt_aes_etm idPrims
          (encrypt_aes_etm idPrims (List.replicate 32 0) (List.replicate 16 0)
            [104, 105]).ciphertext_b64
          (encrypt_aes_etm idPrims (List.replicate 32 0) (List.replicate 16 0)
            [104, 105]).iv_b64
          (encrypt_aes_etm idPrims (List.replicate 32 0) (List.replicate 16 0)
            [104, 105]).mac_b64
          (encrypt_aes_etm idPrims (List.replicate 32 0) (List.replicate 16 0)
            [104, 105]).key_b64 := rfl
    rw [hstep]
    exact etm_roundtrip idPrims (List.replicate 32 0) (List.replicate 16 0) [104, 105]
      (by decide) (by decide) (by decide) (by decide) (by decide)
      (goodAes_idPrims _) goodHmac_idPrims
  · rfl
